import Mathlib

/-!
Shallow embedding of `pentops/wireguard-config-sidecare` (`src/main.go`).

The program turns a `wg_pb.Server` network description into one server
WireGuard node and one node per non-revoked member, then renders each node
to the `[Interface]`/`[Peer]` configuration text.

External library capabilities (the `cidr`, `script`, `node` packages from
`github.com/interxfi/wireguard`, `wgtypes` key parsing, and `os.Getenv`)
are modelled explicitly below; each such definition carries a doc comment
saying so.  Everything else is translated directly from `src/main.go`.

Go pointer fields of the protobuf messages are modelled as `Option`;
a Go nil-pointer dereference is modelled as the `Outcome.panic` result.
-/

set_option maxRecDepth 4000

namespace WgSidecar

/-- Result of a fallible Go computation: a normal value, a returned
`error`, or a runtime panic (nil-pointer dereference). -/
inductive Outcome (α : Type) where
  | ok (val : α)
  | err (msg : String)
  | panic (msg : String)
  deriving DecidableEq, Repr

/-- `wg_pb.PrivateKey.Store` variants.  The protobuf currently has the
single `EnvVar` case; an unset/unknown variant is `Option.none` at the
use site. -/
inductive PrivateKeyStore where
  | envVar (name : String)
  deriving DecidableEq, Repr

/-- `wg_pb.PrivateKey`: a tagged source for the server's secret.
`store = none` models a message whose oneof is unset (or an unknown
variant). -/
structure PrivateKey where
  store : Option PrivateKeyStore
  deriving DecidableEq, Repr

/-- `wg_pb.Routes`: the accept-list of destination CIDR strings. -/
structure Routes where
  accept : List String
  deriving DecidableEq, Repr

/-- `wg_pb.User`: one member of the network. -/
structure User where
  publicKey : String
  revoked   : Bool
  deriving DecidableEq, Repr

/-- `wg_pb.Server`: the input NetworkSpec.  Pointer-typed protobuf fields
(`PrivateKey`, `Routes`) are `Option`; scalar fields keep Go zero-value
semantics. -/
structure Server where
  privateKey : Option PrivateKey
  listenPort : Nat
  cidr       : String
  routes     : Option Routes
  endpoint   : String
  dns        : List String
  users      : List User
  deriving DecidableEq, Repr

/-- `wg_pb.Interface`: the `[Interface]` half of a node.  Pointer fields
of the protobuf are `Option`, matching the nil checks in
`buildNodeFile`. -/
structure Interface where
  address    : String
  listenPort : Option Nat
  privateKey : Option String
  dns        : Option String
  preUp      : Option String
  postUp     : Option String
  preDown    : Option String
  postDown   : Option String
  deriving DecidableEq, Repr

/-- `wg_pb.Peer`: one `[Peer]` section; all three fields are proto3
scalar strings (zero value `""`). -/
structure Peer where
  publicKey  : String
  endpoint   : String
  allowedIps : String
  deriving DecidableEq, Repr

/-- `wg_pb.Node`: one rendered configuration unit. -/
structure Node where
  interface : Interface
  peers     : List Peer
  deriving DecidableEq, Repr

/-! ### CIDR arithmetic

Modelled from the spec: the external `github.com/interxfi/wireguard/cidr`
package (spec §4.2 and the §8 example).  A parsed CIDR is the network
base address (an IPv4 address as a `Nat`) plus the prefix length;
`First` is the first usable address (base + 1), `GetNth n` is the n-th
member address (base + 1 + n, so `GetNth 0 = First`), and `Mask` is the
prefix length rendered as a string. -/
structure Cidr where
  base      : Nat
  prefixLen : Nat
  deriving DecidableEq, Repr

/-- Modelled from the spec: `cidr.First()` — the range's first usable
address, reserved for the server (spec §4.2, example §8:
`10.0.0.0/24 ↦ 10.0.0.1`). -/
def Cidr.first (c : Cidr) : Nat := c.base + 1

/-- Modelled from the spec: `cidr.GetNth(n)` — the address at 1-based
member ordinal `n` (example §8: `GetNth 1 = 10.0.0.2`). -/
def Cidr.getNth (c : Cidr) (n : Nat) : Nat := c.base + 1 + n

/-- Modelled from the spec: `cidr.Mask()` — the prefix length as text. -/
def Cidr.mask (c : Cidr) : String := toString c.prefixLen

/-- Render an IPv4 address (as `Nat`, reduced mod 2^32) in dotted-quad
notation.  Models the `String()` method of the cidr package's address
type. -/
def ipStr (n : Nat) : String :=
  let m := n % 4294967296
  toString (m / 16777216) ++ "." ++ toString (m / 65536 % 256) ++ "."
    ++ toString (m / 256 % 256) ++ "." ++ toString (m % 256)

/-- Split a list of characters on a separator character. -/
def splitOnChar (sep : Char) : List Char → List (List Char)
  | [] => [[]]
  | c :: cs =>
    let rest := splitOnChar sep cs
    if c = sep then [] :: rest
    else match rest with
      | [] => [[c]]
      | r :: rs => (c :: r) :: rs

/-- Parse a nonempty all-digit character list as a `Nat`. -/
def parseNatChars (cs : List Char) : Option Nat :=
  if cs.isEmpty then none
  else cs.foldlM (fun acc c => if c.isDigit then some (acc * 10 + (c.toNat - 48)) else none) 0

/-- Modelled from the spec: `cidr.Parse` — parse `"a.b.c.d/p"` into a
network base and prefix length, failing on malformed input
(`Error(InvalidCIDR)`).  The base is masked down to the network
address. -/
def cidrParse (s : String) : Option Cidr :=
  match splitOnChar '/' s.data with
  | [ipPart, prePart] =>
    match splitOnChar '.' ipPart with
    | [a, b, c, d] =>
      match parseNatChars a, parseNatChars b, parseNatChars c, parseNatChars d, parseNatChars prePart with
      | some a', some b', some c', some d', some p =>
        if a' ≤ 255 ∧ b' ≤ 255 ∧ c' ≤ 255 ∧ d' ≤ 255 ∧ p ≤ 32 then
          let ip := ((a' * 256 + b') * 256 + c') * 256 + d'
          let block := 2 ^ (32 - p)
          some { base := ip / block * block, prefixLen := p }
        else none
      | _, _, _, _, _ => none
    | _ => none
  | _ => none

/-! ### Key resolution (`getPrivateKey`, `src/main.go` lines 155–167) -/

/-- The process environment, as Go's `os.Getenv` sees it: an unset
variable reads as `""`. -/
abbrev Env : Type := String → String

/-- `getPrivateKey` from `src/main.go`: dispatch on the key store
variant.  An `EnvVar` store reads the named variable and fails when it
is empty (hence also when unset); any other store falls through to the
`"unknown private key store"` error.  Go dereferences `pk.Store`, so a
nil `pk` is a panic. -/
def getPrivateKey (env : Env) (pk : Option PrivateKey) : Outcome String :=
  match pk with
  | none => .panic "runtime error: invalid memory address or nil pointer dereference"
  | some pk =>
    match pk.store with
    | some (.envVar name) =>
      if env name = "" then .err ("env var " ++ name ++ " is empty")
      else .ok (env name)
    | none => .err "unknown private key store"

/-! ### Firewall script (`buildPostUp`, `src/main.go` lines 169–196) -/

/-- Modelled from the spec: the `script` package's builder holds an
ordered list of command lines (`AddLine` appends). -/
abbrev Script := List String

/-- Modelled from the spec: `script.Builder.AddLine`. -/
def Script.addLine (s : Script) (l : String) : Script := s ++ [l]

/-- Modelled from the spec: the one-line command separator used by
`script.Builder.ToOneLine` — commands are concatenated with `"; "` so
the result can stand as a single `PostUp` directive value (spec §4.3). -/
def oneLineSep : String := "; "

/-- Modelled from the spec: `script.Builder.ToOneLine` joins the
accumulated commands with the command separator. -/
def Script.toOneLine (s : Script) : String := String.intercalate oneLineSep s

/-- The ordered command list accumulated by `buildPostUp` for a non-nil
`Routes` (the `AddLine` calls of `src/main.go` lines 177–193). -/
def buildPostUpCmds (r : Routes) : Script :=
  let s : Script := []
  let s := s.addLine "iptables -N wgroute || echo \"wgroute chain already exists\""
  let s := s.addLine "iptables -C FORWARD -i wg0 -j wgroute || iptables -A FORWARD -i wg0 -j wgroute"
  let s := s.addLine "iptables -t nat -A POSTROUTING -o eth0 -j MASQUERADE"
  let s := s.addLine "iptables -F wgroute"
  let s := r.accept.foldl
    (fun s route => s.addLine ("iptables -A wgroute -d " ++ route ++ " -i wg0 -o eth0 -j ACCEPT")) s
  let s := s.addLine "iptables -A wgroute -j REJECT --reject-with icmp-host-prohibited"
  let s := s.addLine "echo \"Done\""
  s

/-- `buildPostUp` from `src/main.go`: empty string for nil routes,
otherwise the one-line joined command sequence. -/
def buildPostUp (pu : Option Routes) : String :=
  match pu with
  | none => ""
  | some r => (buildPostUpCmds r).toOneLine

/-! ### Topology builder (`buildNodes`, `src/main.go` lines 89–153) -/

/-- Modelled from the spec: the external key-pair derivation
(`wgtypes.ParseKey` followed by `.PublicKey().String()`), an opaque
deterministic function from the private-key text to the public-key text,
failing (`none`) on malformed key material. -/
abbrev Crypto : Type := String → Option String

/-- The server-side peer entry appended for the non-revoked member at
original index `idx` (`src/main.go` lines 124–127): the member's public
key, that member's /32 address as `AllowedIps`, and no endpoint (proto3
zero value `""`). -/
def mkServerPeer (c : Cidr) (idx : Nat) (u : User) : Peer :=
  { publicKey := u.publicKey
    endpoint := ""
    allowedIps := ipStr (c.getNth (idx + 1)) ++ "/32" }

/-- The member node built for the non-revoked member at original index
`idx` (`src/main.go` lines 129–148): its own /32 address, DNS only when
the comma-joined list is nonempty, and a single peer pointing back at
the server. -/
def mkUserNode (pub : String) (c : Cidr) (server : Server) (r : Routes) (idx : Nat) : Node :=
  let dns := String.intercalate "," server.dns
  { interface :=
      { address := ipStr (c.getNth (idx + 1)) ++ "/32"
        listenPort := none
        privateKey := none
        dns := if dns = "" then none else some dns
        preUp := none
        postUp := none
        preDown := none
        postDown := none }
    peers :=
      [ { publicKey := pub
          endpoint := server.endpoint ++ ":" ++ toString server.listenPort
          allowedIps := String.intercalate ", " r.accept } ] }

/-- The user loop of `buildNodes` (`src/main.go` lines 120–150),
carrying the original index.  A revoked member is skipped entirely.  For
a non-revoked member the Go code evaluates `server.Routes.Accept`
without a nil check, so a nil `routes` is a nil-pointer panic at the
first non-revoked member. -/
def buildUsers (pub : String) (c : Cidr) (server : Server) :
    Nat → List User → Outcome (List Peer × List Node)
  | _, [] => .ok ([], [])
  | idx, u :: rest =>
    if u.revoked then buildUsers pub c server (idx + 1) rest
    else
      match server.routes with
      | none => .panic "runtime error: invalid memory address or nil pointer dereference"
      | some r =>
        match buildUsers pub c server (idx + 1) rest with
        | .ok (ps, ns) => .ok (mkServerPeer c idx u :: ps, mkUserNode pub c server r idx :: ns)
        | .err m => .err m
        | .panic m => .panic m

/-- `buildNodes` from `src/main.go`: resolve the private key, derive the
public key, parse the CIDR, build the (possibly empty) `PostUp` script,
assemble the server node, then walk the users. -/
def buildNodes (crypto : Crypto) (env : Env) (server : Server) : Outcome (Node × List Node) :=
  match getPrivateKey env server.privateKey with
  | .err m => .err m
  | .panic m => .panic m
  | .ok pk =>
    match crypto pk with
    | none => .err "invalid key material"
    | some pub =>
      match cidrParse server.cidr with
      | none => .err "invalid CIDR address"
      | some c =>
        let postup := buildPostUp server.routes
        let serverIface : Interface :=
          { address := ipStr c.first ++ "/" ++ c.mask
            listenPort := some server.listenPort
            privateKey := some pk
            dns := none
            preUp := none
            postUp := some postup
            preDown := none
            postDown := none }
        match buildUsers pub c server 0 server.users with
        | .err m => .err m
        | .panic m => .panic m
        | .ok (peers, nodes) => .ok ({ interface := serverIface, peers := peers }, nodes)

/-! ### Node serialization (`buildNodeFile`, `src/main.go` lines 198–244) -/

/-- Modelled from the spec: the `node` package's builder, like the
script builder an ordered list of lines; `String()` joins them with
newlines. -/
def addLine (b : List String) (l : String) : List String := b ++ [l]

/-- The ordered lines `buildNodeFile` feeds to the node builder,
translated statement by statement from `src/main.go` lines 198–241
(note the source emits `PostDown` before `PreDown`). -/
def buildNodeFileLines (n : Node) : List String :=
  let c := addLine [] "[Interface]"
  let c := addLine c ("Address = " ++ n.interface.address)
  let c := match n.interface.listenPort with
    | some p => addLine c ("ListenPort = " ++ toString p)
    | none => c
  let c := match n.interface.privateKey with
    | some k => addLine c ("PrivateKey = " ++ k)
    | none => c
  let c := match n.interface.dns with
    | some d => addLine c ("DNS = " ++ d)
    | none => c
  let c := match n.interface.preUp with
    | some v => addLine c ("PreUp = " ++ v)
    | none => c
  let c := match n.interface.postUp with
    | some v => addLine c ("PostUp = " ++ v)
    | none => c
  let c := match n.interface.postDown with
    | some v => addLine c ("PostDown = " ++ v)
    | none => c
  let c := match n.interface.preDown with
    | some v => addLine c ("PreDown = " ++ v)
    | none => c
  let c := addLine c ""
  n.peers.foldl
    (fun c u =>
      addLine (addLine (addLine (addLine c "[Peer]")
        ("PublicKey = " ++ u.publicKey))
        ("Endpoint = " ++ u.endpoint))
        ("AllowedIPs = " ++ u.allowedIps) |> (fun c => addLine c ""))
    c

/-- `buildNodeFile` from `src/main.go`: the rendered configuration
text.  Modelled from the spec: the node builder's `String()` joins the
accumulated lines with newlines. -/
def buildNodeFile (n : Node) : String :=
  String.intercalate "\n" (buildNodeFileLines n)

/-! ### Spec-side descriptions used by the theorems -/

/-- The §4.2 allocator contract, `allocate(cidr, ordinal)`: parse the
range and take the address at the 1-based ordinal. -/
def allocate (cidrStr : String) (ordinal : Nat) : Option String :=
  (cidrParse cidrStr).map (fun c => ipStr (c.getNth ordinal))

/-- Position, in the generated member-node list, of the node belonging
to the member at original index `j`: the number of earlier non-revoked
members. -/
def nodeIndex (users : List User) (j : Nat) : Nat :=
  ((users.take j).filter (fun u => !u.revoked)).length

/-- An optional interface line: present exactly when the field is. -/
def optLine (tag : String) : Option String → List String
  | some v => [tag ++ v]
  | none => []

/-- One `[Peer]` section as the spec describes it: `PublicKey`,
`Endpoint`, `AllowedIPs` in that order, closed by a blank line. -/
def peerSection (u : Peer) : List String :=
  ["[Peer]", "PublicKey = " ++ u.publicKey, "Endpoint = " ++ u.endpoint,
   "AllowedIPs = " ++ u.allowedIps, ""]

/-- The §4.5 rendering contract, written as the spec describes it (with
the field order the source actually uses: `PostDown` before `PreDown`):
an interface section with the required `Address` line and each optional
line exactly when the field is present, a blank line, then the peer
sections. -/
def renderedLines (n : Node) : List String :=
  ["[Interface]", "Address = " ++ n.interface.address]
  ++ optLine "ListenPort = " (n.interface.listenPort.map toString)
  ++ optLine "PrivateKey = " n.interface.privateKey
  ++ optLine "DNS = " n.interface.dns
  ++ optLine "PreUp = " n.interface.preUp
  ++ optLine "PostUp = " n.interface.postUp
  ++ optLine "PostDown = " n.interface.postDown
  ++ optLine "PreDown = " n.interface.preDown
  ++ [""]
  ++ n.peers.flatMap peerSection

/-! ### Concrete fixtures used by witnesses and counterexamples -/

/-- Modelled from the spec: a concrete deterministic stand-in for the
external Curve25519 public-key derivation, adequate for evaluating the
build on concrete inputs (no claim depends on actual key values). -/
def trivCrypto : Crypto := fun s => some ("PUB(" ++ s ++ ")")

/-- A concrete process environment holding the server secret in
`WG_KEY`. -/
def exEnv : Env := fun name => if name = "WG_KEY" then "server-secret" else ""

/-- The §8 example input: CIDR `10.0.0.0/24`, three users with
`revoked = false, false, true`, one accepted route, endpoint
`vpn.example.com`, listen port 51820. -/
def exSpec : Server :=
  { privateKey := some { store := some (.envVar "WG_KEY") }
    listenPort := 51820
    cidr := "10.0.0.0/24"
    routes := some { accept := ["10.1.0.0/16"] }
    endpoint := "vpn.example.com"
    dns := []
    users := [ { publicKey := "k0", revoked := false },
               { publicKey := "k1", revoked := false },
               { publicKey := "k2", revoked := true } ] }

/-- The server node the build produces for `exSpec`. -/
def exServerNode : Node :=
  { interface :=
      { address := "10.0.0.1/24"
        listenPort := some 51820
        privateKey := some "server-secret"
        dns := none
        preUp := none
        postUp := some ("iptables -N wgroute || echo \"wgroute chain already exists\"; iptables -C FORWARD -i wg0 -j wgroute || iptables -A FORWARD -i wg0 -j wgroute; iptables -t nat -A POSTROUTING -o eth0 -j MASQUERADE; iptables -F wgroute; iptables -A wgroute -d 10.1.0.0/16 -i wg0 -o eth0 -j ACCEPT; iptables -A wgroute -j REJECT --reject-with icmp-host-prohibited; echo \"Done\"")
        preDown := none
        postDown := none }
    peers := [ { publicKey := "k0", endpoint := "", allowedIps := "10.0.0.2/32" },
               { publicKey := "k1", endpoint := "", allowedIps := "10.0.0.3/32" } ] }

/-- The member node the build produces for `exSpec`'s user at original
index `idx` (both generated members share everything but the
address). -/
def exUserNode (addr : String) : Node :=
  { interface :=
      { address := addr
        listenPort := none
        privateKey := none
        dns := none
        preUp := none
        postUp := none
        preDown := none
        postDown := none }
    peers := [ { publicKey := "PUB(server-secret)"
                 endpoint := "vpn.example.com:51820"
                 allowedIps := "10.1.0.0/16" } ] }

/-- Evaluating the build on the §8 example input. -/
lemma exBuild_eq :
    buildNodes trivCrypto exEnv exSpec
      = .ok (exServerNode, [exUserNode "10.0.0.2/32", exUserNode "10.0.0.3/32"]) := by
  decide

/-- A spec with `routes` absent and no users: the build succeeds and the
server node still carries `postUp = some ""`. -/
def cexNoRoutesSpec : Server :=
  { privateKey := some { store := some (.envVar "WG_KEY") }
    listenPort := 51820
    cidr := "10.0.0.0/24"
    routes := none
    endpoint := "vpn.example.com"
    dns := []
    users := [] }

/-- The server node built from `cexNoRoutesSpec`. -/
def cexNoRoutesServer : Node :=
  { interface :=
      { address := "10.0.0.1/24"
        listenPort := some 51820
        privateKey := some "server-secret"
        dns := none
        preUp := none
        postUp := some ""
        preDown := none
        postDown := none }
    peers := [] }

/-- Evaluating the build on the routes-absent, no-users input. -/
lemma cexNoRoutes_eq :
    buildNodes trivCrypto exEnv cexNoRoutesSpec = .ok (cexNoRoutesServer, []) := by
  decide

/-- A spec with `routes` absent and one non-revoked user — the input on
which the user loop dereferences the nil `Routes` pointer. -/
def cexPanicSpec : Server :=
  { privateKey := some { store := some (.envVar "WG_KEY") }
    listenPort := 51820
    cidr := "10.0.0.0/24"
    routes := none
    endpoint := "vpn.example.com"
    dns := []
    users := [ { publicKey := "k0", revoked := false } ] }

/-- A node with every optional interface field populated, to observe the
serializer's field order. -/
def cexAllFieldsNode : Node :=
  { interface :=
      { address := "A"
        listenPort := some 1
        privateKey := some "K"
        dns := some "D"
        preUp := some "u1"
        postUp := some "u2"
        preDown := some "d1"
        postDown := some "d2" }
    peers := [] }

/-! ### Facts about the user loop -/

lemma nodeIndex_zero (users : List User) : nodeIndex users 0 = 0 := by
  simp [nodeIndex]

lemma nodeIndex_cons_succ (u : User) (rest : List User) (j : Nat) :
    nodeIndex (u :: rest) (j + 1)
      = if u.revoked then nodeIndex rest j else nodeIndex rest j + 1 := by
  cases hu : u.revoked <;>
    simp [nodeIndex, List.take_succ_cons, List.filter_cons, hu]

/-- With a nil `routes`, the user loop only returns normally when every
user is revoked — and then it produces no peers and no nodes. -/
lemma buildUsers_none (pub : String) (c : Cidr) (server : Server)
    (hr : server.routes = none) :
    ∀ (users : List User) (i0 : Nat) (ps : List Peer) (ns : List Node),
      buildUsers pub c server i0 users = .ok (ps, ns) →
      (∀ u ∈ users, u.revoked = true) ∧ ps = [] ∧ ns = [] := by
  intro users
  induction users with
  | nil =>
    intro i0 ps ns h
    simp only [buildUsers, Outcome.ok.injEq, Prod.mk.injEq] at h
    exact ⟨by simp, h.1.symm, h.2.symm⟩
  | cons u rest ih =>
    intro i0 ps ns h
    simp only [buildUsers] at h
    by_cases hu : u.revoked
    · rw [if_pos hu] at h
      obtain ⟨hall, hps, hns⟩ := ih (i0 + 1) ps ns h
      refine ⟨?_, hps, hns⟩
      intro v hv
      rcases List.mem_cons.mp hv with hv | hv
      · subst hv; exact hu
      · exact hall v hv
    · rw [if_neg hu, hr] at h
      exact absurd h (by simp)

/-- The member node generated for the non-revoked user at original index
`j` sits at position `nodeIndex users j` of the node list and is
`mkUserNode` at ordinal base `i0 + j`. -/
lemma buildUsers_get_node (pub : String) (c : Cidr) (server : Server) (r : Routes)
    (hr : server.routes = some r) :
    ∀ (users : List User) (i0 : Nat) (ps : List Peer) (ns : List Node),
      buildUsers pub c server i0 users = .ok (ps, ns) →
      ∀ j (hj : j < users.length), users[j].revoked = false →
        ns[nodeIndex users j]? = some (mkUserNode pub c server r (i0 + j)) := by
  intro users
  induction users with
  | nil =>
    intro i0 ps ns _ j hj
    exact absurd hj (by simp)
  | cons u rest ih =>
    intro i0 ps ns h j hj hrev
    simp only [buildUsers] at h
    by_cases hu : u.revoked
    · rw [if_pos hu] at h
      cases j with
      | zero => simp at hrev; rw [hrev] at hu; exact absurd hu (by simp)
      | succ jj =>
        have hj' : jj < rest.length := by simpa using hj
        have hres := ih (i0 + 1) ps ns h jj hj' (by simpa using hrev)
        rw [nodeIndex_cons_succ, if_pos hu]
        have harith : i0 + 1 + jj = i0 + (jj + 1) := by omega
        rw [harith] at hres
        exact hres
    · rw [if_neg hu, hr] at h
      cases hrec : buildUsers pub c server (i0 + 1) rest with
      | ok pr =>
        obtain ⟨ps', ns'⟩ := pr
        rw [hrec] at h
        simp only [Outcome.ok.injEq, Prod.mk.injEq] at h
        obtain ⟨_, hns⟩ := h
        cases j with
        | zero =>
          rw [← hns, nodeIndex_zero]
          simp
        | succ jj =>
          have hj' : jj < rest.length := by simpa using hj
          have hres := ih (i0 + 1) ps' ns' hrec jj hj' (by simpa using hrev)
          rw [nodeIndex_cons_succ, if_neg hu, ← hns]
          simp only [List.getElem?_cons_succ]
          have harith : i0 + 1 + jj = i0 + (jj + 1) := by omega
          rw [harith] at hres
          exact hres
      | err m => rw [hrec] at h; exact absurd h (by simp)
      | panic m => rw [hrec] at h; exact absurd h (by simp)

/-- The server peer list carries exactly the public keys of the
non-revoked users, in their original order. -/
lemma buildUsers_peers_keys (pub : String) (c : Cidr) (server : Server) :
    ∀ (users : List User) (i0 : Nat) (ps : List Peer) (ns : List Node),
      buildUsers pub c server i0 users = .ok (ps, ns) →
      ps.map (fun p => p.publicKey)
        = (users.filter (fun u => !u.revoked)).map (fun u => u.publicKey) := by
  intro users
  induction users with
  | nil =>
    intro i0 ps ns h
    simp only [buildUsers, Outcome.ok.injEq, Prod.mk.injEq] at h
    rw [← h.1]
    simp
  | cons u rest ih =>
    intro i0 ps ns h
    simp only [buildUsers] at h
    by_cases hu : u.revoked
    · rw [if_pos hu] at h
      rw [ih (i0 + 1) ps ns h]
      simp [List.filter_cons, hu]
    · rw [if_neg hu] at h
      cases hro : server.routes with
      | none => rw [hro] at h; exact absurd h (by simp)
      | some r =>
        rw [hro] at h
        cases hrec : buildUsers pub c server (i0 + 1) rest with
        | ok pr =>
          obtain ⟨ps', ns'⟩ := pr
          rw [hrec] at h
          simp only [Outcome.ok.injEq, Prod.mk.injEq] at h
          rw [← h.1]
          simp [List.filter_cons, hu, mkServerPeer, ih (i0 + 1) ps' ns' hrec]
        | err m => rw [hrec] at h; exact absurd h (by simp)
        | panic m => rw [hrec] at h; exact absurd h (by simp)

/-- One generated member node per non-revoked user. -/
lemma buildUsers_nodes_length (pub : String) (c : Cidr) (server : Server) :
    ∀ (users : List User) (i0 : Nat) (ps : List Peer) (ns : List Node),
      buildUsers pub c server i0 users = .ok (ps, ns) →
      ns.length = (users.filter (fun u => !u.revoked)).length := by
  intro users
  induction users with
  | nil =>
    intro i0 ps ns h
    simp only [buildUsers, Outcome.ok.injEq, Prod.mk.injEq] at h
    rw [← h.2]
    simp
  | cons u rest ih =>
    intro i0 ps ns h
    simp only [buildUsers] at h
    by_cases hu : u.revoked
    · rw [if_pos hu] at h
      rw [ih (i0 + 1) ps ns h]
      simp [List.filter_cons, hu]
    · rw [if_neg hu] at h
      cases hro : server.routes with
      | none => rw [hro] at h; exact absurd h (by simp)
      | some r =>
        rw [hro] at h
        cases hrec : buildUsers pub c server (i0 + 1) rest with
        | ok pr =>
          obtain ⟨ps', ns'⟩ := pr
          rw [hrec] at h
          simp only [Outcome.ok.injEq, Prod.mk.injEq] at h
          rw [← h.2]
          simp only [List.length_cons, ih (i0 + 1) ps' ns' hrec]
          simp [List.filter_cons, hu]
        | err m => rw [hrec] at h; exact absurd h (by simp)
        | panic m => rw [hrec] at h; exact absurd h (by simp)

/-- Every server peer the loop produces is an `mkServerPeer` (so in
particular carries the empty endpoint). -/
lemma buildUsers_peers_mem (pub : String) (c : Cidr) (server : Server) :
    ∀ (users : List User) (i0 : Nat) (ps : List Peer) (ns : List Node),
      buildUsers pub c server i0 users = .ok (ps, ns) →
      ∀ p ∈ ps, ∃ idx u, p = mkServerPeer c idx u := by
  intro users
  induction users with
  | nil =>
    intro i0 ps ns h
    simp only [buildUsers, Outcome.ok.injEq, Prod.mk.injEq] at h
    rw [← h.1]
    simp
  | cons u rest ih =>
    intro i0 ps ns h
    simp only [buildUsers] at h
    by_cases hu : u.revoked
    · rw [if_pos hu] at h
      exact ih (i0 + 1) ps ns h
    · rw [if_neg hu] at h
      cases hro : server.routes with
      | none => rw [hro] at h; exact absurd h (by simp)
      | some r =>
        rw [hro] at h
        cases hrec : buildUsers pub c server (i0 + 1) rest with
        | ok pr =>
          obtain ⟨ps', ns'⟩ := pr
          rw [hrec] at h
          simp only [Outcome.ok.injEq, Prod.mk.injEq] at h
          rw [← h.1]
          intro p hp
          rcases List.mem_cons.mp hp with hp | hp
          · exact ⟨i0, u, hp⟩
          · exact ih (i0 + 1) ps' ns' hrec p hp
        | err m => rw [hrec] at h; exact absurd h (by simp)
        | panic m => rw [hrec] at h; exact absurd h (by simp)

/-- Every generated member node is an `mkUserNode`. -/
lemma buildUsers_nodes_mem (pub : String) (c : Cidr) (server : Server) (r : Routes)
    (hr : server.routes = some r) :
    ∀ (users : List User) (i0 : Nat) (ps : List Peer) (ns : List Node),
      buildUsers pub c server i0 users = .ok (ps, ns) →
      ∀ n ∈ ns, ∃ idx, n = mkUserNode pub c server r idx := by
  intro users
  induction users with
  | nil =>
    intro i0 ps ns h
    simp only [buildUsers, Outcome.ok.injEq, Prod.mk.injEq] at h
    rw [← h.2]
    simp
  | cons u rest ih =>
    intro i0 ps ns h
    simp only [buildUsers] at h
    by_cases hu : u.revoked
    · rw [if_pos hu] at h
      exact ih (i0 + 1) ps ns h
    · rw [if_neg hu, hr] at h
      cases hrec : buildUsers pub c server (i0 + 1) rest with
      | ok pr =>
        obtain ⟨ps', ns'⟩ := pr
        rw [hrec] at h
        simp only [Outcome.ok.injEq, Prod.mk.injEq] at h
        rw [← h.2]
        intro n hn
        rcases List.mem_cons.mp hn with hn | hn
        · exact ⟨i0, hn⟩
        · exact ih (i0 + 1) ps' ns' hrec n hn
      | err m => rw [hrec] at h; exact absurd h (by simp)
      | panic m => rw [hrec] at h; exact absurd h (by simp)

/-- Inversion of a successful build: key resolution, key derivation and
CIDR parsing succeeded, the user loop returned normally, and the server
node has exactly the interface `buildNodes` assembles. -/
lemma buildNodes_ok_inv (crypto : Crypto) (env : Env) (spec : Server)
    (sn : Node) (uns : List Node)
    (hb : buildNodes crypto env spec = .ok (sn, uns)) :
    ∃ pk pub c peers,
      getPrivateKey env spec.privateKey = .ok pk ∧
      crypto pk = some pub ∧
      cidrParse spec.cidr = some c ∧
      buildUsers pub c spec 0 spec.users = .ok (peers, uns) ∧
      sn = { interface :=
               { address := ipStr c.first ++ "/" ++ c.mask
                 listenPort := some spec.listenPort
                 privateKey := some pk
                 dns := none
                 preUp := none
                 postUp := some (buildPostUp spec.routes)
                 preDown := none
                 postDown := none }
             peers := peers } := by
  simp only [buildNodes] at hb
  split at hb
  · simp at hb
  · simp at hb
  · rename_i pk hk
    split at hb
    · simp at hb
    · rename_i pub hcr
      split at hb
      · simp at hb
      · rename_i c hc
        split at hb
        · simp at hb
        · simp at hb
        · rename_i peers nodes hu
          simp only [Outcome.ok.injEq, Prod.mk.injEq] at hb
          obtain ⟨hsn, hns⟩ := hb
          subst hns
          exact ⟨pk, pub, c, peers, hk, hcr, hc, hu, hsn.symm⟩

/-- If a successful build saw a non-revoked user, `routes` was present
(otherwise the loop would have hit the nil dereference). -/
lemma routes_some_of_ok (crypto : Crypto) (env : Env) (spec : Server)
    (sn : Node) (uns : List Node)
    (hb : buildNodes crypto env spec = .ok (sn, uns))
    (j : Nat) (hj : j < spec.users.length)
    (hrev : spec.users[j].revoked = false) :
    ∃ r, spec.routes = some r := by
  obtain ⟨pk, pub, c, peers, _, _, _, hu, _⟩ := buildNodes_ok_inv crypto env spec sn uns hb
  cases hro : spec.routes with
  | some r => exact ⟨r, rfl⟩
  | none =>
    obtain ⟨hall, _, _⟩ := buildUsers_none pub c spec hro spec.users 0 peers uns hu
    have := hall spec.users[j] (List.getElem_mem hj)
    rw [hrev] at this
    exact absurd this (by simp)

/-- Peers whose key list avoids `key` contain no entry with that key. -/
lemma peers_filter_key_nil (ps : List Peer) (users : List User) (key : String)
    (hkeys : ps.map (fun p => p.publicKey)
      = (users.filter (fun u => !u.revoked)).map (fun u => u.publicKey))
    (hnm : key ∉ users.map (fun u => u.publicKey)) :
    ps.filter (fun p => p.publicKey == key) = [] := by
  rw [List.filter_eq_nil_iff]
  intro p hp
  have hmem : p.publicKey ∈ ps.map (fun p => p.publicKey) :=
    List.mem_map_of_mem _ hp
  rw [hkeys] at hmem
  have hsub : (users.filter (fun u => !u.revoked)).map (fun u => u.publicKey)
      ⊆ users.map (fun u => u.publicKey) :=
    ((users.filter_sublist).map _).subset
  have hmem' := hsub hmem
  simp only [beq_iff_eq]
  intro hEq
  rw [hEq] at hmem'
  exact hnm hmem'

/-- With pairwise-distinct public keys, the server peer list holds
exactly one entry for each non-revoked user (that user's key and /32
address) and none for a revoked user. -/
lemma buildUsers_filter_key (pub : String) (c : Cidr) (server : Server) :
    ∀ (users : List User) (i0 : Nat) (ps : List Peer) (ns : List Node),
      buildUsers pub c server i0 users = .ok (ps, ns) →
      (users.map (fun u => u.publicKey)).Nodup →
      ∀ j (hj : j < users.length),
        ps.filter (fun p => p.publicKey == users[j].publicKey)
          = if users[j].revoked then []
            else [{ publicKey := users[j].publicKey, endpoint := ""
                    allowedIps := ipStr (c.getNth (i0 + j + 1)) ++ "/32" }] := by
  intro users
  induction users with
  | nil =>
    intro i0 ps ns _ _ j hj
    exact absurd hj (by simp)
  | cons u rest ih =>
    intro i0 ps ns h hnd j hj
    rw [List.map_cons, List.nodup_cons] at hnd
    obtain ⟨hkey, hnd'⟩ := hnd
    simp only [buildUsers] at h
    by_cases hu : u.revoked
    · rw [if_pos hu] at h
      cases j with
      | zero =>
        simp only [List.getElem_cons_zero, if_pos hu]
        exact peers_filter_key_nil ps rest u.publicKey
          (buildUsers_peers_keys pub c server rest (i0 + 1) ps ns h) hkey
      | succ jj =>
        have hj' : jj < rest.length := by simpa using hj
        have hres := ih (i0 + 1) ps ns h hnd' jj hj'
        have harith : i0 + 1 + jj + 1 = i0 + (jj + 1) + 1 := by omega
        rw [harith] at hres
        simpa using hres
    · rw [if_neg hu] at h
      cases hro : server.routes with
      | none => rw [hro] at h; exact absurd h (by simp)
      | some r =>
        rw [hro] at h
        cases hrec : buildUsers pub c server (i0 + 1) rest with
        | ok pr =>
          obtain ⟨ps', ns'⟩ := pr
          rw [hrec] at h
          simp only [Outcome.ok.injEq, Prod.mk.injEq] at h
          obtain ⟨hps, _⟩ := h
          rw [← hps]
          cases j with
          | zero =>
            have hub : u.revoked = false := by simpa using hu
            simp only [List.getElem_cons_zero, hub]
            rw [if_neg (by simp)]
            rw [List.filter_cons]
            have hhead : ((mkServerPeer c i0 u).publicKey == u.publicKey) = true := by
              simp [mkServerPeer]
            rw [if_pos hhead]
            have htail : ps'.filter (fun p => p.publicKey == u.publicKey) = [] :=
              peers_filter_key_nil ps' rest u.publicKey
                (buildUsers_peers_keys pub c server rest (i0 + 1) ps' ns' hrec) hkey
            rw [htail]
            simp [mkServerPeer]
          | succ jj =>
            have hj' : jj < rest.length := by simpa using hj
            have hres := ih (i0 + 1) ps' ns' hrec hnd' jj hj'
            rw [List.filter_cons]
            have hne : u.publicKey ≠ rest[jj].publicKey := by
              intro hEq
              exact hkey (hEq ▸ List.mem_map_of_mem _ (List.getElem_mem hj'))
            have hhead : ((mkServerPeer c i0 u).publicKey == rest[jj].publicKey) = false := by
              simp [mkServerPeer, hne]
            simp only [List.getElem_cons_succ]
            rw [if_neg (by rw [hhead]; simp)]
            have harith : i0 + 1 + jj + 1 = i0 + (jj + 1) + 1 := by omega
            rw [harith] at hres
            exact hres
        | err m => rw [hrec] at h; exact absurd h (by simp)
        | panic m => rw [hrec] at h; exact absurd h (by simp)

/-! ### Rendering characterization -/

/-- Generic shape of a left fold of `addLine` steps: the peer loop of
`buildNodeFileLines` appends one `peerSection` per peer. -/
lemma peers_foldl (ps : List Peer) : ∀ acc : List String,
    ps.foldl
      (fun c u =>
        addLine (addLine (addLine (addLine c "[Peer]")
          ("PublicKey = " ++ u.publicKey))
          ("Endpoint = " ++ u.endpoint))
          ("AllowedIPs = " ++ u.allowedIps) |> (fun c => addLine c ""))
      acc
    = acc ++ ps.flatMap peerSection := by
  induction ps with
  | nil => intro acc; simp
  | cons u rest ih =>
    intro acc
    simp only [List.foldl_cons, List.flatMap_cons]
    rw [ih]
    simp [addLine, peerSection, List.append_assoc]

/-- The imperative serializer produces exactly the section-based line
list of the §4.5 contract (with the source's `PostDown`-before-`PreDown`
order). -/
lemma buildNodeFileLines_eq (n : Node) : buildNodeFileLines n = renderedLines n := by
  obtain ⟨⟨addr, lp, pk, dns, pu, pou, prd, pod⟩, ps⟩ := n
  simp only [buildNodeFileLines, renderedLines, peers_foldl]
  cases lp <;> cases pk <;> cases dns <;> cases pu <;> cases pou <;> cases prd <;> cases pod <;>
    simp [addLine, optLine, List.append_assoc]

/-! ### Small string helpers for "no such line" reasoning -/

/-- A string compared through its first `n` characters is insensitive to
whatever is appended after a prefix of at least `n` characters. -/
lemma take_append_ne (p s : String) (n : Nat) (target : List Char)
    (hlen : n ≤ p.data.length)
    (hne : p.data.take n ≠ target) :
    (p ++ s).data.take n ≠ target := by
  rw [String.data_append, List.take_append_of_le_length hlen]
  exact hne

/-- Joining an empty list of strings yields the empty string. -/
lemma intercalate_nil (s : String) : String.intercalate s [] = "" := rfl

/-- A fold of `addLine` steps appends one produced line per element. -/
lemma foldl_addLine (f : String → String) (l : List String) :
    ∀ acc : Script,
      l.foldl (fun s x => Script.addLine s (f x)) acc = acc ++ l.map f := by
  induction l with
  | nil => intro acc; simp
  | cons x xs ih =>
    intro acc
    simp only [List.foldl_cons, List.map_cons]
    rw [ih]
    simp [Script.addLine, List.append_assoc]

/-- The address of the member node generated for original index `j`. -/
lemma member_address (crypto : Crypto) (env : Env) (spec : Server)
    (sn : Node) (uns : List Node)
    (hb : buildNodes crypto env spec = .ok (sn, uns))
    (j : Nat) (hj : j < spec.users.length)
    (hrev : spec.users[j].revoked = false) :
    (uns[nodeIndex spec.users j]?).map (fun n => n.interface.address)
      = (allocate spec.cidr (j + 1)).map (fun a => a ++ "/32") := by
  obtain ⟨r, hr⟩ := routes_some_of_ok crypto env spec sn uns hb j hj hrev
  obtain ⟨pk, pub, c, peers, _, _, hc, hu, _⟩ :=
    buildNodes_ok_inv crypto env spec sn uns hb
  have hn := buildUsers_get_node pub c spec r hr spec.users 0 peers uns hu j hj hrev
  rw [hn]
  simp [allocate, hc, mkUserNode]

/-! ### The claims -/

/-- C1: for every spec on which the build succeeds, the member at
original 0-based index `j`, when non-revoked, is assigned the address
`allocate(spec.cidr, j+1)` with a `/32` host mask (its node sits at
position `nodeIndex` — the count of earlier non-revoked members — in
the member-node list); consequently, flipping the revoked flag of the
member at another index `k` leaves that address unchanged. -/
theorem C1_member_address_allocation
    (crypto : Crypto) (env : Env) (spec : Server) (sn : Node) (uns : List Node)
    (hb : buildNodes crypto env spec = .ok (sn, uns)) :
    (∀ j (hj : j < spec.users.length), spec.users[j].revoked = false →
       (uns[nodeIndex spec.users j]?).map (fun n => n.interface.address)
         = (allocate spec.cidr (j + 1)).map (fun a => a ++ "/32"))
    ∧
    (∀ (spec' : Server) (sn' : Node) (uns' : List Node) (k : Nat),
       buildNodes crypto env spec' = .ok (sn', uns') →
       spec'.cidr = spec.cidr →
       2 ≤ spec.users.length →
       (∀ i, i ≠ k → spec'.users[i]? = spec.users[i]?) →
       ∀ j, j ≠ k → ∀ hj : j < spec.users.length,
         spec.users[j].revoked = false →
         (uns[nodeIndex spec.users j]?).map (fun n => n.interface.address)
           = (uns'[nodeIndex spec'.users j]?).map (fun n => n.interface.address)) := by
  constructor
  · intro j hj hrev
    exact member_address crypto env spec sn uns hb j hj hrev
  · intro spec' sn' uns' k hb' hcidr _ hagree j hjk hj hrev
    have h1 := member_address crypto env spec sn uns hb j hj hrev
    have hsome : spec'.users[j]? = some spec.users[j] := by
      rw [hagree j hjk]
      exact List.getElem?_eq_getElem hj
    obtain ⟨hj', heq⟩ := List.getElem?_eq_some_iff.mp hsome
    have hrev' : spec'.users[j].revoked = false := by rw [heq]; exact hrev
    have h2 := member_address crypto env spec' sn' uns' hb' j hj' hrev'
    rw [h1, h2, hcidr]

/-- Witness for C1 at the §8 example, member index 1. -/
theorem C1_member_address_allocation_witness :
    (([exUserNode "10.0.0.2/32", exUserNode "10.0.0.3/32"][nodeIndex exSpec.users 1]?).map
        (fun n => n.interface.address))
      = (allocate exSpec.cidr 2).map (fun a => a ++ "/32") := by
  have h := (C1_member_address_allocation trivCrypto exEnv exSpec exServerNode
    [exUserNode "10.0.0.2/32", exUserNode "10.0.0.3/32"] exBuild_eq).1 1 (by decide) (by decide)
  exact h

/-- C2 counterexample: with `routes` absent (and no users, so the build
completes), the server's rendered output does contain a `PostUp` line —
the directive is emitted with an empty value. -/
theorem C2_omission_counterexample :
    buildNodes trivCrypto exEnv cexNoRoutesSpec = .ok (cexNoRoutesServer, [])
    ∧ ("PostUp = " : String) ∈ buildNodeFileLines cexNoRoutesServer
    ∧ ("PostUp = " : String).data.take 9 = "PostUp = ".data := by
  decide

/-- C2 (amended): if `routes` is absent and the build succeeds, the
server's `postUp` field is the explicitly-set empty string, so its
rendered output contains exactly one `PostUp` line, `"PostUp = "`, with
no firewall text after the `=`; and if `dns` is empty, no member node's
rendered output contains a `DNS` line. -/
theorem C2_omission
    (crypto : Crypto) (env : Env) (spec : Server) (sn : Node) (uns : List Node)
    (hb : buildNodes crypto env spec = .ok (sn, uns)) :
    (spec.routes = none →
       sn.interface.postUp = some ""
       ∧ ("PostUp = " : String) ∈ buildNodeFileLines sn
       ∧ (∀ l ∈ buildNodeFileLines sn, l.data.take 9 = "PostUp = ".data → l = "PostUp = "))
    ∧ (spec.dns = [] →
       ∀ m ∈ uns, ∀ l ∈ buildNodeFileLines m, l.data.take 6 ≠ "DNS = ".data) := by
  obtain ⟨pk, pub, c, peers, hk, hcr, hc, hu, hsn⟩ :=
    buildNodes_ok_inv crypto env spec sn uns hb
  constructor
  · intro hro
    obtain ⟨_, hps, _⟩ := buildUsers_none pub c spec hro spec.users 0 peers uns hu
    subst hps
    have hpu : buildPostUp spec.routes = "" := by rw [hro]; rfl
    have hlines : buildNodeFileLines sn
        = ["[Interface]",
           "Address = " ++ (ipStr c.first ++ "/" ++ c.mask),
           "ListenPort = " ++ toString spec.listenPort,
           "PrivateKey = " ++ pk,
           "PostUp = " ++ "",
           ""] := by
      rw [buildNodeFileLines_eq, hsn, hpu]
      simp [renderedLines, optLine]
    refine ⟨by rw [hsn, hpu], ?_, ?_⟩
    · rw [hlines]
      have : ("PostUp = " : String) = "PostUp = " ++ "" := by decide
      rw [this]
      simp
    · intro l hl htake
      rw [hlines] at hl
      simp only [List.mem_cons, List.not_mem_nil, or_false] at hl
      rcases hl with rfl | rfl | rfl | rfl | rfl | rfl
      · exact absurd htake (by decide)
      · exact absurd htake (take_append_ne "Address = " _ 9 _ (by decide) (by decide))
      · exact absurd htake (take_append_ne "ListenPort = " _ 9 _ (by decide) (by decide))
      · exact absurd htake (take_append_ne "PrivateKey = " _ 9 _ (by decide) (by decide))
      · decide
      · exact absurd htake (by decide)
  · intro hdns m hm l hl htake
    cases hro : spec.routes with
    | none =>
      obtain ⟨_, _, hns⟩ := buildUsers_none pub c spec hro spec.users 0 peers uns hu
      subst hns
      exact absurd hm (by simp)
    | some r =>
      obtain ⟨idx, hmk⟩ :=
        buildUsers_nodes_mem pub c spec r hro spec.users 0 peers uns hu m hm
      subst hmk
      have hlines : buildNodeFileLines (mkUserNode pub c spec r idx)
          = ["[Interface]",
             "Address = " ++ (ipStr (c.getNth (idx + 1)) ++ "/32"),
             "",
             "[Peer]",
             "PublicKey = " ++ pub,
             "Endpoint = " ++ (spec.endpoint ++ ":" ++ toString spec.listenPort),
             "AllowedIPs = " ++ String.intercalate ", " r.accept,
             ""] := by
        rw [buildNodeFileLines_eq]
        simp [renderedLines, mkUserNode, hdns, intercalate_nil, optLine, peerSection]
      rw [hlines] at hl
      simp only [List.mem_cons, List.not_mem_nil, or_false] at hl
      rcases hl with rfl | rfl | rfl | rfl | rfl | rfl | rfl | rfl
      · exact absurd htake (by decide)
      · exact absurd htake (take_append_ne "Address = " _ 6 _ (by decide) (by decide))
      · exact absurd htake (by decide)
      · exact absurd htake (by decide)
      · exact absurd htake (take_append_ne "PublicKey = " _ 6 _ (by decide) (by decide))
      · exact absurd htake (take_append_ne "Endpoint = " _ 6 _ (by decide) (by decide))
      · exact absurd htake (take_append_ne "AllowedIPs = " _ 6 _ (by decide) (by decide))
      · exact absurd htake (by decide)

/-- Witness for C2 (amended) at the routes-absent fixture. -/
theorem C2_omission_witness :
    cexNoRoutesServer.interface.postUp = some "" := by
  have h := (C2_omission trivCrypto exEnv cexNoRoutesSpec cexNoRoutesServer []
    cexNoRoutes_eq).1 rfl
  exact h.1

/-- C3 counterexample: on a node with every optional field set, the
serializer emits `PostDown` before `PreDown`, contradicting the claimed
`..., PreDown, PostDown` order. -/
theorem C3_render_order_counterexample :
    buildNodeFileLines cexAllFieldsNode
      = ["[Interface]", "Address = A", "ListenPort = 1", "PrivateKey = K", "DNS = D",
         "PreUp = u1", "PostUp = u2", "PostDown = d2", "PreDown = d1", ""]
    ∧ (buildNodeFileLines cexAllFieldsNode).indexOf "PostDown = d2"
        < (buildNodeFileLines cexAllFieldsNode).indexOf "PreDown = d1" := by
  decide

/-- C3 (amended): `render` emits an interface section with the required
`Address` line and each optional field only when present, in the fixed
order `ListenPort`, `PrivateKey`, `DNS`, `PreUp`, `PostUp`, `PostDown`,
`PreDown` (the source emits `PostDown` before `PreDown`), followed by
zero or more peer sections each containing `PublicKey`, `Endpoint`,
`AllowedIPs` in that order, separated by blank lines. -/
theorem C3_render_order (n : Node) : buildNodeFileLines n = renderedLines n :=
  buildNodeFileLines_eq n

/-- C4: the claim that `buildNodes` never crashes is contradicted by the
code: with `routes` absent and one non-revoked member, the user loop
dereferences the nil `Routes` pointer and the build panics instead of
returning a value or an error. -/
theorem C4_nil_routes_build_panics :
    buildNodes trivCrypto exEnv cexPanicSpec
      = .panic "runtime error: invalid memory address or nil pointer dereference" := by
  decide

/-- C5: on a successful build with pairwise-distinct member public keys,
the server's peer list has exactly one entry for each non-revoked member
`j` — carrying that member's public key and its /32 address — and none
for a revoked member; the member's own node holds exactly one peer,
whose public key is the server's derived public key; and there are
exactly as many member nodes as non-revoked members. -/
theorem C5_peer_symmetry
    (crypto : Crypto) (env : Env) (spec : Server) (sn : Node) (uns : List Node)
    (pk pub : String) (c : Cidr)
    (hb : buildNodes crypto env spec = .ok (sn, uns))
    (hk : getPrivateKey env spec.privateKey = .ok pk)
    (hpub : crypto pk = some pub)
    (hc : cidrParse spec.cidr = some c)
    (hnd : (spec.users.map (fun u => u.publicKey)).Nodup) :
    (∀ j (hj : j < spec.users.length),
       (spec.users[j].revoked = false →
          sn.peers.filter (fun p => p.publicKey == spec.users[j].publicKey)
            = [{ publicKey := spec.users[j].publicKey, endpoint := ""
                 allowedIps := ipStr (c.getNth (j + 1)) ++ "/32" }]
          ∧ (uns[nodeIndex spec.users j]?).map (fun n => n.peers.map (fun p => p.publicKey))
              = some [pub])
       ∧ (spec.users[j].revoked = true →
          sn.peers.filter (fun p => p.publicKey == spec.users[j].publicKey) = []))
    ∧ uns.length = (spec.users.filter (fun u => !u.revoked)).length := by
  obtain ⟨pk', pub', c', peers, hk', hcr', hc', hu, hsn⟩ :=
    buildNodes_ok_inv crypto env spec sn uns hb
  rw [hk] at hk'
  injection hk' with hpk
  subst hpk
  rw [hpub] at hcr'
  injection hcr' with hpub'
  subst hpub'
  rw [hc] at hc'
  injection hc' with hcc
  subst hcc
  constructor
  · intro j hj
    constructor
    · intro hrev
      obtain ⟨r, hr⟩ := routes_some_of_ok crypto env spec sn uns hb j hj hrev
      have hfil := buildUsers_filter_key pub c spec spec.users 0 peers uns hu hnd j hj
      rw [hrev] at hfil
      rw [if_neg (by simp)] at hfil
      constructor
      · rw [hsn]
        simpa using hfil
      · have hn := buildUsers_get_node pub c spec r hr spec.users 0 peers uns hu j hj hrev
        rw [hn]
        simp [mkUserNode]
    · intro hrev
      have hfil := buildUsers_filter_key pub c spec spec.users 0 peers uns hu hnd j hj
      rw [hrev] at hfil
      rw [if_pos (by simp)] at hfil
      rw [hsn]
      exact hfil
  · exact buildUsers_nodes_length pub c spec spec.users 0 peers uns hu

/-- Witness for C5 at the §8 example, member index 0. -/
theorem C5_peer_symmetry_witness :
    exServerNode.peers.filter (fun p => p.publicKey == "k0")
      = [{ publicKey := "k0", endpoint := "", allowedIps := "10.0.0.2/32" }] := by
  have h := (C5_peer_symmetry trivCrypto exEnv exSpec exServerNode
      [exUserNode "10.0.0.2/32", exUserNode "10.0.0.3/32"]
      "server-secret" "PUB(server-secret)" { base := 167772160, prefixLen := 24 }
      exBuild_eq (by decide) (by decide) (by decide) (by decide)).1 0 (by decide)
  exact (h.1 (by decide)).1

/-- C6: for any routes value, the `PostUp` command list is exactly the
7-step sequence — create chain, attach FORWARD redirect, masquerade,
flush, one accept rule per `routes.accept` entry in order, terminal
reject, completion marker — and the one-line form is these commands
joined by the command separator (so splitting it on that separator
recovers the same order). -/
theorem C6_firewall_order (r : Routes) :
    buildPostUpCmds r
      = ["iptables -N wgroute || echo \"wgroute chain already exists\"",
         "iptables -C FORWARD -i wg0 -j wgroute || iptables -A FORWARD -i wg0 -j wgroute",
         "iptables -t nat -A POSTROUTING -o eth0 -j MASQUERADE",
         "iptables -F wgroute"]
        ++ r.accept.map (fun route => "iptables -A wgroute -d " ++ route ++ " -i wg0 -o eth0 -j ACCEPT")
        ++ ["iptables -A wgroute -j REJECT --reject-with icmp-host-prohibited",
            "echo \"Done\""]
    ∧ buildPostUp (some r) = String.intercalate oneLineSep (buildPostUpCmds r) := by
  refine ⟨?_, rfl⟩
  simp only [buildPostUpCmds]
  rw [foldl_addLine]
  simp [Script.addLine, List.append_assoc]

/-- C7: the §8 example input produces exactly the expected server
address, member addresses, peer counts, endpoint and allowed IPs; the
revoked third member yields no node and no server peer entry. -/
theorem C7_example_build :
    buildNodes trivCrypto exEnv exSpec
      = .ok (exServerNode, [exUserNode "10.0.0.2/32", exUserNode "10.0.0.3/32"])
    ∧ exServerNode.interface.address = "10.0.0.1/24"
    ∧ (exUserNode "10.0.0.2/32").interface.address = "10.0.0.2/32"
    ∧ (exUserNode "10.0.0.3/32").interface.address = "10.0.0.3/32"
    ∧ exServerNode.peers.length = 2
    ∧ exServerNode.peers.map (fun p => p.publicKey) = ["k0", "k1"]
    ∧ exServerNode.peers.map (fun p => p.allowedIps) = ["10.0.0.2/32", "10.0.0.3/32"]
    ∧ (exUserNode "10.0.0.2/32").peers.map (fun p => (p.endpoint, p.allowedIps))
        = [("vpn.example.com:51820", "10.1.0.0/16")] := by
  decide

/-- C8: key resolution succeeds with the environment variable's value
exactly when the store is an env-var reference naming a non-empty
variable; it fails with the named-variable error when the variable is
empty or unset, and with the unsupported-store error for any other
store variant. -/
theorem C8_key_resolution (env : Env) (pk : PrivateKey) :
    (∀ name, pk.store = some (.envVar name) → env name ≠ "" →
       getPrivateKey env (some pk) = .ok (env name))
    ∧ (∀ name, pk.store = some (.envVar name) → env name = "" →
       getPrivateKey env (some pk) = .err ("env var " ++ name ++ " is empty"))
    ∧ (pk.store = none →
       getPrivateKey env (some pk) = .err "unknown private key store") := by
  refine ⟨?_, ?_, ?_⟩
  · intro name hst hne
    simp [getPrivateKey, hst, hne]
  · intro name hst he
    simp [getPrivateKey, hst, he]
  · intro hst
    simp [getPrivateKey, hst]

/-- Witness for C8: resolving the example environment's `WG_KEY`. -/
theorem C8_key_resolution_witness :
    getPrivateKey exEnv (some { store := some (.envVar "WG_KEY") }) = .ok "server-secret" := by
  have h := (C8_key_resolution exEnv { store := some (.envVar "WG_KEY") }).1
    "WG_KEY" rfl (by decide)
  exact h

/-- C9: the build is deterministic — two successful builds of the same
spec in the same environment serialize to identical bytes for the
server node and for every member node. -/
theorem C9_determinism
    (crypto : Crypto) (env : Env) (spec : Server)
    (sn1 sn2 : Node) (uns1 uns2 : List Node)
    (h1 : buildNodes crypto env spec = .ok (sn1, uns1))
    (h2 : buildNodes crypto env spec = .ok (sn2, uns2)) :
    buildNodeFile sn1 = buildNodeFile sn2
    ∧ uns1.map buildNodeFile = uns2.map buildNodeFile := by
  rw [h1] at h2
  simp only [Outcome.ok.injEq, Prod.mk.injEq] at h2
  obtain ⟨hs, hu⟩ := h2
  rw [hs, hu]
  exact ⟨rfl, rfl⟩

/-- Witness for C9 at the §8 example. -/
theorem C9_determinism_witness :
    buildNodeFile exServerNode = buildNodeFile exServerNode
    ∧ [exUserNode "10.0.0.2/32", exUserNode "10.0.0.3/32"].map buildNodeFile
        = [exUserNode "10.0.0.2/32", exUserNode "10.0.0.3/32"].map buildNodeFile :=
  C9_determinism trivCrypto exEnv exSpec exServerNode exServerNode
    [exUserNode "10.0.0.2/32", exUserNode "10.0.0.3/32"]
    [exUserNode "10.0.0.2/32", exUserNode "10.0.0.3/32"]
    exBuild_eq exBuild_eq

/-- C10: every peer section is rendered with `PublicKey`, `Endpoint` and
`AllowedIPs` lines whether or not the peer has an endpoint; the peers of
a built server node all carry the empty endpoint, so each server peer
section contains the line `"Endpoint = "` with an empty value. -/
theorem C10_endpoint_always_rendered
    (crypto : Crypto) (env : Env) (spec : Server) (sn : Node) (uns : List Node)
    (hb : buildNodes crypto env spec = .ok (sn, uns)) :
    (∀ (m : Node), ∀ p ∈ m.peers,
       ("PublicKey = " ++ p.publicKey) ∈ buildNodeFileLines m
       ∧ ("Endpoint = " ++ p.endpoint) ∈ buildNodeFileLines m
       ∧ ("AllowedIPs = " ++ p.allowedIps) ∈ buildNodeFileLines m)
    ∧ (∀ p ∈ sn.peers, p.endpoint = ""
         ∧ ("Endpoint = " : String) ∈ buildNodeFileLines sn) := by
  have hA : ∀ (m : Node), ∀ p ∈ m.peers,
      ("PublicKey = " ++ p.publicKey) ∈ buildNodeFileLines m
      ∧ ("Endpoint = " ++ p.endpoint) ∈ buildNodeFileLines m
      ∧ ("AllowedIPs = " ++ p.allowedIps) ∈ buildNodeFileLines m := by
    intro m p hp
    rw [buildNodeFileLines_eq]
    have h1 : ("PublicKey = " ++ p.publicKey) ∈ m.peers.flatMap peerSection :=
      List.mem_flatMap.mpr ⟨p, hp, by simp [peerSection]⟩
    have h2 : ("Endpoint = " ++ p.endpoint) ∈ m.peers.flatMap peerSection :=
      List.mem_flatMap.mpr ⟨p, hp, by simp [peerSection]⟩
    have h3 : ("AllowedIPs = " ++ p.allowedIps) ∈ m.peers.flatMap peerSection :=
      List.mem_flatMap.mpr ⟨p, hp, by simp [peerSection]⟩
    refine ⟨?_, ?_, ?_⟩ <;> simp [renderedLines, h1, h2, h3]
  refine ⟨hA, ?_⟩
  intro p hp
  obtain ⟨pk, pub, c, peers, _, _, _, hu, hsn⟩ :=
    buildNodes_ok_inv crypto env spec sn uns hb
  have hp' : p ∈ peers := by
    rw [hsn] at hp
    exact hp
  obtain ⟨idx, u, hmk⟩ := buildUsers_peers_mem pub c spec spec.users 0 peers uns hu p hp'
  have hep : p.endpoint = "" := by rw [hmk]; rfl
  refine ⟨hep, ?_⟩
  have := (hA sn p hp).2.1
  rw [hep, String.append_empty] at this
  exact this

/-- Witness for C10 at the §8 example server node. -/
theorem C10_endpoint_always_rendered_witness :
    ("Endpoint = " : String) ∈ buildNodeFileLines exServerNode := by
  have h := (C10_endpoint_always_rendered trivCrypto exEnv exSpec exServerNode
      [exUserNode "10.0.0.2/32", exUserNode "10.0.0.3/32"] exBuild_eq).2
    { publicKey := "k0", endpoint := "", allowedIps := "10.0.0.2/32" } (by decide)
  exact h.2

end WgSidecar
